import Mathlib

/-!
Registration form (`src/App.jsx`): validation rules and the touched/error state machine

A shallow embedding of the component logic of `App.jsx`:

* JavaScript strings are sequences of UTF-16 code units (`JSString`), so that `value.length`,
  `String.prototype.trim` and the regular-expression classes `\S`, `\d` read as in the source;
* `validateField` is the `switch` over the field name, with the dynamically typed `value`
  (`Value`: a string for the text-like inputs, a boolean for the checkbox);
  `none` stands for the `TypeError` thrown by `value.trim()` on a boolean;
* the three `useState` cells (`formData`, `errors`, `touched`) form the `State`, and each handler
  is one transition on it (every handler runs to completion before the next event).
-/

namespace Form

/-! ## Strings -/

/-- One UTF-16 code unit (a number below `65536`). -/
abbrev CodeUnit := Nat

/-- A JavaScript string: a finite sequence of UTF-16 code units. -/
abbrev JSString := List CodeUnit

/-- UTF-16 encoding of one Unicode scalar value. -/
def utf16Char (c : Char) : List CodeUnit :=
  if c.toNat < 65536 then [c.toNat]
  else [55296 + (c.toNat - 65536) / 1024, 56320 + (c.toNat - 65536) % 1024]

/-- The JavaScript string written by a string literal. -/
def js (s : String) : JSString :=
  s.toList.flatMap utf16Char

/-- ECMAScript `WhiteSpace` and `LineTerminator` code units: what `\s` matches and what
`String.prototype.trim` strips. -/
def isWhiteSpace (c : CodeUnit) : Bool :=
  c == 9 || c == 10 || c == 11 || c == 12 || c == 13 || c == 32 || c == 160 || c == 5760 ||
  (8192 ≤ c && c ≤ 8202) || c == 8232 || c == 8233 || c == 8239 || c == 8287 ||
  c == 12288 || c == 65279

/-- The class `\S`. -/
def isNonWhiteSpace (c : CodeUnit) : Bool :=
  !isWhiteSpace c

/-- The class `\d` (without the `u`/`i` flags: exactly `0`..`9`). -/
def isDigit (c : CodeUnit) : Bool :=
  48 ≤ c && c ≤ 57

/-- The method `String.prototype.trim`: strip white space from both ends. -/
def trim (s : JSString) : JSString :=
  ((s.dropWhile isWhiteSpace).reverse.dropWhile isWhiteSpace).reverse

/-! ## Regular expressions -/

/-- The fragment of regular expressions used by the source, over code units. -/
inductive RegExp where
  | never : RegExp
  | eps : RegExp
  | cls (p : CodeUnit → Bool) : RegExp
  | seq (r s : RegExp) : RegExp
  | alt (r s : RegExp) : RegExp
  | star (r : RegExp) : RegExp

namespace RegExp

/-- Does the expression match the empty string? -/
def nullable : RegExp → Bool
  | never => false
  | eps => true
  | cls _ => false
  | seq r s => r.nullable && s.nullable
  | alt r s => r.nullable || s.nullable
  | star _ => true

/-- Brzozowski derivative with respect to one code unit. -/
def deriv : RegExp → CodeUnit → RegExp
  | never, _ => never
  | eps, _ => never
  | cls p, a => if p a then eps else never
  | seq r s, a => if r.nullable then alt (seq (r.deriv a) s) (s.deriv a) else seq (r.deriv a) s
  | alt r s, a => alt (r.deriv a) (s.deriv a)
  | star r, a => seq (r.deriv a) (star r)

/-- Whole-string match: the expression between `^` and `$` (no `m` flag). -/
def rmatch : RegExp → JSString → Bool
  | r, [] => r.nullable
  | r, a :: as => rmatch (r.deriv a) as

/-- The literal code unit `c`. -/
def chr (c : CodeUnit) : RegExp :=
  cls (fun a => a == c)

/-- The quantifier `+`. -/
def plus (r : RegExp) : RegExp :=
  seq r (star r)

/-- The quantifier `{n}`. -/
def times (r : RegExp) : Nat → RegExp
  | 0 => eps
  | n + 1 => seq r (times r n)

end RegExp

/-- The pattern `/^\S+@\S+\.\S+$/`. -/
def emailPattern : RegExp :=
  .seq (.plus (.cls isNonWhiteSpace))
    (.seq (.chr 64)
      (.seq (.plus (.cls isNonWhiteSpace))
        (.seq (.chr 46) (.plus (.cls isNonWhiteSpace)))))

/-- The pattern `/^\d{10}$/`. -/
def phonePattern : RegExp :=
  .times (.cls isDigit) 10

/-! ## Values and the form record -/

/-- What a handler passes as `value`: the input's string, or the checkbox's `checked`. -/
inductive Value where
  | str (s : JSString) : Value
  | bool (b : Bool) : Value
  deriving DecidableEq

namespace Value

/-- JavaScript truthiness (`!value` is its negation). -/
def truthy : Value → Bool
  | str s => !s.isEmpty
  | bool b => b

/-- The conversion `ToString`, applied by `RegExp.prototype.test` to its argument. -/
def toJSString : Value → JSString
  | str s => s
  | bool true => js "true"
  | bool false => js "false"

/-- The call `value.trim()`; a boolean has no such method and the call throws (`none`). -/
def trim : Value → Option JSString
  | str s => some (Form.trim s)
  | bool _ => none

/-- The test `value.length < n`; for a boolean `value.length` is `undefined` and the comparison false. -/
def lengthLt : Value → Nat → Bool
  | str s, n => decide (s.length < n)
  | bool _, _ => false

/-- The test `value !== s` for a string `s`. -/
def strictNe : Value → JSString → Bool
  | str v, s => decide (v ≠ s)
  | bool _, _ => true

end Value

/-- The call `re.test(value)`. -/
def RegExp.test (re : RegExp) (value : Value) : Bool :=
  re.rmatch value.toJSString

/-- The record `formData`: the keys of `initialForm`, strings except the boolean `terms`. -/
structure FormValues where
  firstName : JSString
  lastName : JSString
  email : JSString
  phone : JSString
  country : JSString
  dob : JSString
  password : JSString
  confirmPassword : JSString
  terms : Bool
  deriving DecidableEq

/-- The constant `initialForm`. -/
def initialForm : FormValues :=
  { firstName := [], lastName := [], email := [], phone := [], country := [], dob := [],
    password := [], confirmPassword := [], terms := false }

/-! ## `validateField` -/

/-- The function `validateField(name, value, allValues)`; the result is the message
(`""` for a valid value), `none` when the call throws. -/
def validateField (name : String) (value : Value) (allValues : FormValues) : Option String :=
  match name with
  | "firstName" =>
    match value.trim with
    | none => none
    | some t => if t.isEmpty then some "First name is required" else some ""
  | "lastName" =>
    match value.trim with
    | none => none
    | some t => if t.isEmpty then some "Last name is required" else some ""
  | "email" =>
    if !value.truthy then some "Email is required"
    else if !emailPattern.test value then some "Email address is invalid"
    else some ""
  | "phone" =>
    if !value.truthy then some "Phone number is required"
    else if !phonePattern.test value then some "Phone must be 10 digits"
    else some ""
  | "country" =>
    if !value.truthy then some "Please select a country" else some ""
  | "dob" =>
    if !value.truthy then some "Date of birth is required" else some ""
  | "password" =>
    if !value.truthy then some "Password is required"
    else if value.lengthLt 8 then some "Password must be at least 8 characters"
    else some ""
  | "confirmPassword" =>
    if !value.truthy then some "Confirm Password is required"
    else if value.strictNe allValues.password then some "Passwords do not match"
    else some ""
  | "terms" =>
    if !value.truthy then some "You must accept the terms" else some ""
  | _ => some ""

/-! ## The component state -/

/-- The keys of `initialForm`, which are also the `name` attributes of the nine inputs. -/
inductive Field where
  | firstName | lastName | email | phone | country | dob | password | confirmPassword | terms
  deriving DecidableEq

namespace Field

/-- The key as the string `validateField` switches on. -/
def name : Field → String
  | firstName => "firstName"
  | lastName => "lastName"
  | email => "email"
  | phone => "phone"
  | country => "country"
  | dob => "dob"
  | password => "password"
  | confirmPassword => "confirmPassword"
  | terms => "terms"

/-- The DOM `type` of the input rendered with that `name`. -/
def type : Field → String
  | firstName => "text"
  | lastName => "text"
  | email => "email"
  | phone => "tel"
  | country => "select-one"
  | dob => "date"
  | password => "password"
  | confirmPassword => "password"
  | terms => "checkbox"

/-- The list `Object.keys(formData)`: the keys in the order of `initialForm`. -/
def keys : List Field :=
  [firstName, lastName, email, phone, country, dob, password, confirmPassword, terms]

end Field

/-- The read `formData[key]`. -/
def FormValues.get (d : FormValues) : Field → Value
  | .firstName => .str d.firstName
  | .lastName => .str d.lastName
  | .email => .str d.email
  | .phone => .str d.phone
  | .country => .str d.country
  | .dob => .str d.dob
  | .password => .str d.password
  | .confirmPassword => .str d.confirmPassword
  | .terms => .bool d.terms

/-- A JavaScript object whose keys are field names: its properties in insertion order. -/
structure JSObject (α : Type) where
  props : List (Field × α)
  deriving DecidableEq

namespace JSObject

variable {α : Type}

/-- The object literal `{}`. -/
def empty : JSObject α :=
  ⟨[]⟩

/-- The read `o[k]`, `none` when `o` has no property `k`. -/
def get (o : JSObject α) (k : Field) : Option α :=
  o.props.lookup k

/-- Assignment to a property list: overwrite in place, or append a new property. -/
def setProps : List (Field × α) → Field → α → List (Field × α)
  | [], k, v => [(k, v)]
  | (k0, v0) :: rest, k, v => if k0 = k then (k, v) :: rest else (k0, v0) :: setProps rest k v

/-- The write `o[k] = v`, also the spread `{ ...o, [k]: v }`. -/
def set (o : JSObject α) (k : Field) (v : α) : JSObject α :=
  ⟨setProps o.props k v⟩

/-- The list `Object.keys(o)`. -/
def keys (o : JSObject α) : List Field :=
  o.props.map Prod.fst

end JSObject

/-- The `errors` object: a property holds a message or `undefined` (`none`). -/
abbrev ErrorMap := JSObject (Option String)

/-- The read `errors[k]` as the renderer reads it: the message, or `none` for `undefined`. -/
def ErrorMap.message (errors : ErrorMap) (k : Field) : Option String :=
  (errors.get k).join

/-- The `touched` object. -/
abbrev TouchedSet := JSObject Bool

/-- Truthiness of `touched[k]`. -/
def TouchedSet.isTouched (touched : TouchedSet) (k : Field) : Bool :=
  touched.get k == some true

/-- The three state cells of the component. -/
structure State where
  formData : FormValues
  errors : ErrorMap
  touched : TouchedSet
  deriving DecidableEq

/-- The state of the first render: `useState(initialForm)`, `useState({})`, `useState({})`. -/
def State.initial : State :=
  { formData := initialForm, errors := JSObject.empty, touched := JSObject.empty }

/-- The fields of `e.target` the handlers read, for an event of one of the nine inputs
(its `type` is `Field.type name`). -/
structure Target where
  name : Field
  value : JSString
  checked : Bool
  deriving DecidableEq

/-- The value `type === "checkbox" ? checked : value`. -/
def Target.newValue (e : Target) : Value :=
  if e.name.type = "checkbox" then .bool e.checked else .str e.value

/-- The record `{ ...formData, [name]: newValue }` for the target `e`. -/
def FormValues.update (d : FormValues) (e : Target) : FormValues :=
  match e.name with
  | .firstName => { d with firstName := e.value }
  | .lastName => { d with lastName := e.value }
  | .email => { d with email := e.value }
  | .phone => { d with phone := e.value }
  | .country => { d with country := e.value }
  | .dob => { d with dob := e.value }
  | .password => { d with password := e.value }
  | .confirmPassword => { d with confirmPassword := e.value }
  | .terms => { d with terms := e.checked }

/-- The value `msg || undefined`. -/
def orUndefined (msg : String) : Option String :=
  if msg ≠ "" then some msg else none

/-! ## The handlers -/

/-- The function `validateForm()` on the current `formData`: the object given to `setErrors`
and the returned boolean. -/
def validateForm (formData : FormValues) : Option (ErrorMap × Bool) := do
  let nextErrors ← Field.keys.foldlM
    (fun (nextErrors : ErrorMap) key => do
      let msg ← validateField key.name (formData.get key) formData
      pure (if msg ≠ "" then nextErrors.set key (some msg) else nextErrors))
    JSObject.empty
  pure (nextErrors, nextErrors.keys.length == 0)

/-- The handler `handleChange(e)`. -/
def handleChange (s : State) (e : Target) : Option State :=
  let newValue := e.newValue
  let updated := s.formData.update e
  if s.touched.isTouched e.name then do
    let msg ← validateField e.name.name newValue updated
    pure { formData := updated, errors := s.errors.set e.name (orUndefined msg),
           touched := s.touched }
  else
    pure { formData := updated, errors := s.errors, touched := s.touched }

/-- The handler `handleBlur(e)`. -/
def handleBlur (s : State) (e : Target) : Option State := do
  let val := e.newValue
  let msg ← validateField e.name.name val s.formData
  pure { formData := s.formData, errors := s.errors.set e.name (orUndefined msg),
         touched := s.touched.set e.name true }

/-- The handler `handleSubmit(e)`: the state after it (the `alert` leaves the state alone). -/
def handleSubmit (s : State) : Option State := do
  let allTouched : TouchedSet :=
    Field.keys.foldl (fun allTouched key => allTouched.set key true) JSObject.empty
  let (nextErrors, ok) ← validateForm s.formData
  if ok then
    pure { formData := initialForm, errors := JSObject.empty, touched := JSObject.empty }
  else
    pure { formData := s.formData, errors := nextErrors, touched := allTouched }

/-- The events of the form. -/
inductive Event where
  | change (e : Target) : Event
  | blur (e : Target) : Event
  | submit : Event
  deriving DecidableEq

/-- One event handled to completion. -/
def step (s : State) : Event → Option State
  | .change e => handleChange s e
  | .blur e => handleBlur s e
  | .submit => handleSubmit s

/-- The states the component reaches from its first render. -/
inductive Reachable : State → Prop where
  | init : Reachable State.initial
  | step {s s1 : State} (ev : Event) : Reachable s → step s ev = some s1 → Reachable s1

/-! ## Auxiliary readings of the handlers -/

/-- The message of `validateField(key, formData[key], formData)` (`""` if the call threw). -/
def fieldMessage (formData : FormValues) (key : Field) : String :=
  (validateField key.name (formData.get key) formData).getD ""

/-- The loop of `validateForm` run over the keys `ks` from the object `acc`, reading the
messages off `fieldMessage`. -/
def collectErrors (formData : FormValues) (ks : List Field) (acc : ErrorMap) : ErrorMap :=
  ks.foldl
    (fun nextErrors key =>
      if fieldMessage formData key ≠ "" then nextErrors.set key (some (fieldMessage formData key))
      else nextErrors)
    acc

/-- The object `allTouched` built by `handleSubmit`. -/
def allTouched : TouchedSet :=
  Field.keys.foldl (fun allTouched key => allTouched.set key true) JSObject.empty

/-- The message of `validateField(name, newValue, formData)` for the target `e`
(`""` if the call threw). -/
def targetMessage (e : Target) (formData : FormValues) : String :=
  (validateField e.name.name e.newValue formData).getD ""

/-- A form that is filled in correctly except that the terms are not accepted. -/
def sampleForm : FormValues :=
  { firstName := js "Ada", lastName := js "Lovelace", email := js "ada@example.org",
    phone := js "0123456789", country := js "UK", dob := js "1815-12-10",
    password := js "analytical", confirmPassword := js "analytical", terms := false }

/-- A state holding `sampleForm`, with a stale email error and only the email touched. -/
def sampleState : State :=
  { formData := sampleForm,
    errors := JSObject.empty.set .email (some "Email address is invalid"),
    touched := JSObject.empty.set .email true }

/-! ## Traces of events -/

/-- The states reached from the first render by events that pass `guard` in the state in which
they arrive. -/
inductive ReachableBy (guard : State → Event → Bool) : State → Prop where
  | init : ReachableBy guard State.initial
  | step {s s1 : State} (ev : Event) :
      ReachableBy guard s → guard s ev = true → step s ev = some s1 → ReachableBy guard s1

/-- The events a browser delivers in state `s`: every input shows the stored value
(`value={formData.name}`, `checked={formData.terms}`), so a blur carries that value. -/
def storedBlur (s : State) : Event → Bool
  | .blur e => decide (e.newValue = s.formData.get e.name)
  | _ => true

/-- As `storedBlur`, and the password is not edited while the confirmation is touched. -/
def passwordKept (s : State) : Event → Bool
  | .blur e => decide (e.newValue = s.formData.get e.name)
  | .change e => !(decide (e.name = Field.password) && s.touched.isTouched Field.confirmPassword)
  | .submit => true

/-- Run a list of events, each one required to pass `guard`. -/
def runBy (guard : State → Event → Bool) : State → List Event → Option State
  | s, [] => some s
  | s, ev :: evs =>
    if guard s ev then
      match step s ev with
      | some s1 => runBy guard s1 evs
      | none => none
    else none

/-- Type a password, type the same confirmation, leave the confirmation. -/
def matchingTrace : List Event :=
  [ .change ⟨.password, js "analytical", false⟩,
    .change ⟨.confirmPassword, js "analytical", false⟩,
    .blur ⟨.confirmPassword, js "analytical", false⟩ ]

/-- The state after `matchingTrace`: the confirmation is touched and carries no error. -/
def matchingState : State :=
  { formData := { initialForm with password := js "analytical",
                                   confirmPassword := js "analytical" },
    errors := JSObject.empty.set .confirmPassword none,
    touched := JSObject.empty.set .confirmPassword true }

/-- After `matchingTrace`, type another password. -/
def staleTrace : List Event :=
  matchingTrace ++ [ .change ⟨.password, js "difference", false⟩ ]

/-- The state after `staleTrace`: the passwords differ, the confirmation still has no error. -/
def staleState : State :=
  { formData := { initialForm with password := js "difference",
                                   confirmPassword := js "analytical" },
    errors := JSObject.empty.set .confirmPassword none,
    touched := JSObject.empty.set .confirmPassword true }

/-- Leave the empty email field. -/
def blurTrace : List Event :=
  [ .blur ⟨.email, [], false⟩ ]

/-- The state after `blurTrace`: the email is touched and required. -/
def blurState : State :=
  { formData := initialForm,
    errors := JSObject.empty.set .email (some "Email is required"),
    touched := JSObject.empty.set .email true }

/-! ## The rules in the words of the specification -/

/-- The email rule as the specification words it: no white space anywhere, and a split
`a ++ "@" ++ b ++ "." ++ c` into three non-empty parts. -/
def EmailShape (v : JSString) : Prop :=
  (∀ x ∈ v, isWhiteSpace x = false) ∧
  ∃ a b c : JSString, a ≠ [] ∧ b ≠ [] ∧ c ≠ [] ∧ v = a ++ js "@" ++ b ++ js "." ++ c

/-- The phone rule as the specification words it: exactly ten decimal digits. -/
def TenDigits (v : JSString) : Prop :=
  v.length = 10 ∧ ∀ x ∈ v, '0'.toNat ≤ x ∧ x ≤ '9'.toNat

/-! ## Facts about strings and patterns -/

theorem trim_eq_nil_iff (v : JSString) : trim v = [] ↔ ∀ c ∈ v, isWhiteSpace c = true := by
  unfold trim
  rw [List.reverse_eq_nil_iff, List.dropWhile_eq_nil_iff]
  constructor
  · intro h
    by_cases hd : v.dropWhile isWhiteSpace = []
    · exact List.dropWhile_eq_nil_iff.mp hd
    · have h1 := List.head_dropWhile_not isWhiteSpace v hd
      have h2 := h _ (List.mem_reverse.mpr (List.head_mem hd))
      simp [h2] at h1
  · intro h c hc
    rw [List.dropWhile_eq_nil_iff.mpr h] at hc
    simp at hc

namespace RegExp

theorem rmatch_never (x : JSString) : rmatch never x = false := by
  induction x with
  | nil => rfl
  | cons a as ih => simpa [rmatch, deriv] using ih

theorem rmatch_eps (x : JSString) : rmatch eps x = true ↔ x = [] := by
  cases x with
  | nil => simp [rmatch, nullable]
  | cons a as => simp [rmatch, deriv, rmatch_never]

theorem rmatch_cls (p : CodeUnit → Bool) (x : JSString) :
    rmatch (cls p) x = true ↔ ∃ a, x = [a] ∧ p a = true := by
  cases x with
  | nil => simp [rmatch, nullable]
  | cons a as =>
    by_cases h : p a = true
    · simp only [rmatch, deriv, h, if_true, rmatch_eps]
      constructor
      · rintro rfl
        exact ⟨a, rfl, h⟩
      · rintro ⟨b, hb, -⟩
        exact (List.cons.inj hb).2
    · simp only [rmatch, deriv, h, rmatch_never]
      simp only [Bool.false_eq_true, if_false, rmatch_never, false_iff, not_exists, not_and]
      rintro b hb
      rw [← (List.cons.inj hb).1]
      exact h

theorem rmatch_alt (r s : RegExp) (x : JSString) :
    rmatch (alt r s) x = (rmatch r x || rmatch s x) := by
  induction x generalizing r s with
  | nil => simp [rmatch, nullable]
  | cons a as ih => simp [rmatch, deriv, ih]

theorem rmatch_seq (r s : RegExp) (x : JSString) :
    rmatch (seq r s) x = true ↔ ∃ t u, x = t ++ u ∧ rmatch r t = true ∧ rmatch s u = true := by
  induction x generalizing r with
  | nil =>
    simp only [rmatch, nullable, Bool.and_eq_true]
    constructor
    · rintro ⟨hr, hs⟩
      exact ⟨[], [], rfl, hr, hs⟩
    · rintro ⟨t, u, h, ht, hu⟩
      obtain ⟨rfl, rfl⟩ := List.append_eq_nil.mp h.symm
      exact ⟨ht, hu⟩
  | cons a as ih =>
    by_cases hn : r.nullable = true
    · simp only [rmatch, deriv, hn, if_true, rmatch_alt, Bool.or_eq_true, ih]
      constructor
      · rintro (⟨t, u, rfl, ht, hu⟩ | h)
        · exact ⟨a :: t, u, rfl, ht, hu⟩
        · exact ⟨[], a :: as, rfl, hn, h⟩
      · rintro ⟨t, u, h, ht, hu⟩
        cases t with
        | nil =>
          right
          simp only [List.nil_append] at h
          subst h
          exact hu
        | cons b t =>
          left
          simp only [List.cons_append, List.cons.injEq] at h
          obtain ⟨rfl, rfl⟩ := h
          exact ⟨t, u, rfl, ht, hu⟩
    · have hn0 : r.nullable = false := Bool.not_eq_true _ ▸ hn
      simp only [rmatch, deriv, hn0, Bool.false_eq_true, if_false, ih]
      constructor
      · rintro ⟨t, u, rfl, ht, hu⟩
        exact ⟨a :: t, u, rfl, ht, hu⟩
      · rintro ⟨t, u, h, ht, hu⟩
        cases t with
        | nil => exact absurd ht hn
        | cons b t =>
          simp only [List.cons_append, List.cons.injEq] at h
          obtain ⟨rfl, rfl⟩ := h
          exact ⟨t, u, rfl, ht, hu⟩

theorem rmatch_star_cls (p : CodeUnit → Bool) (x : JSString) :
    rmatch (star (cls p)) x = true ↔ ∀ a ∈ x, p a = true := by
  induction x with
  | nil => simp [rmatch, nullable]
  | cons a as ih =>
    simp only [rmatch, deriv, List.mem_cons, forall_eq_or_imp]
    by_cases h : p a = true
    · simp only [h, if_true, rmatch_seq, rmatch_eps, true_and]
      rw [← ih]
      constructor
      · rintro ⟨t, u, rfl, rfl, hu⟩
        exact hu
      · intro hu
        exact ⟨[], as, rfl, rfl, hu⟩
    · simp [h, rmatch_seq, rmatch_never]

theorem rmatch_plus_cls (p : CodeUnit → Bool) (x : JSString) :
    rmatch (plus (cls p)) x = true ↔ x ≠ [] ∧ ∀ a ∈ x, p a = true := by
  unfold plus
  rw [rmatch_seq]
  constructor
  · rintro ⟨t, u, rfl, ht, hu⟩
    obtain ⟨a, rfl, ha⟩ := (rmatch_cls p t).mp ht
    rw [rmatch_star_cls] at hu
    refine ⟨by simp, ?_⟩
    intro b hb
    rcases List.mem_append.mp hb with hb | hb
    · rw [List.mem_singleton.mp hb]
      exact ha
    · exact hu b hb
  · rintro ⟨hx, hall⟩
    cases x with
    | nil => exact absurd rfl hx
    | cons a as =>
      refine ⟨[a], as, rfl, (rmatch_cls p [a]).mpr ⟨a, rfl, hall a (List.mem_cons_self a as)⟩, ?_⟩
      rw [rmatch_star_cls]
      intro b hb
      exact hall b (List.mem_cons_of_mem a hb)

theorem rmatch_times_cls (p : CodeUnit → Bool) (n : Nat) (x : JSString) :
    rmatch (times (cls p) n) x = true ↔ x.length = n ∧ ∀ a ∈ x, p a = true := by
  induction n generalizing x with
  | zero =>
    simp only [times, rmatch_eps]
    constructor
    · rintro rfl
      simp
    · rintro ⟨h, -⟩
      exact List.length_eq_zero.mp h
  | succ n ih =>
    simp only [times, rmatch_seq, rmatch_cls, ih]
    constructor
    · rintro ⟨t, u, rfl, ⟨a, rfl, ha⟩, hlen, hu⟩
      refine ⟨by simp [hlen], ?_⟩
      intro b hb
      rcases List.mem_append.mp hb with hb | hb
      · rw [List.mem_singleton.mp hb]
        exact ha
      · exact hu b hb
    · rintro ⟨hlen, hall⟩
      cases x with
      | nil => simp at hlen
      | cons a as =>
        refine ⟨[a], as, rfl, ⟨a, rfl, hall a (List.mem_cons_self a as)⟩, ?_, ?_⟩
        · simpa using hlen
        · intro b hb
          exact hall b (List.mem_cons_of_mem a hb)

end RegExp

theorem emailPattern_rmatch_iff (v : JSString) :
    emailPattern.rmatch v = true ↔ EmailShape v := by
  have hat : js "@" = [64] := by decide
  have hdot : js "." = [46] := by decide
  unfold emailPattern EmailShape
  simp only [RegExp.rmatch_seq, RegExp.rmatch_plus_cls, RegExp.chr, RegExp.rmatch_cls,
    isNonWhiteSpace, Bool.not_eq_true', beq_iff_eq, hat, hdot]
  constructor
  · rintro ⟨a, _, rfl, ⟨ha, hwa⟩, _, _, rfl, ⟨_, rfl, rfl⟩, b, _, rfl, ⟨hb, hwb⟩,
      _, c, rfl, ⟨_, rfl, rfl⟩, hc, hwc⟩
    refine ⟨?_, a, b, c, ha, hb, hc, by simp⟩
    intro x hx
    simp only [List.mem_append, List.mem_singleton] at hx
    rcases hx with hx | rfl | hx | rfl | hx
    · exact hwa x hx
    · decide
    · exact hwb x hx
    · decide
    · exact hwc x hx
  · rintro ⟨hw, a, b, c, ha, hb, hc, rfl⟩
    refine ⟨a, [64] ++ (b ++ ([46] ++ c)), by simp, ⟨ha, fun x hx => hw x (by simp [hx])⟩,
      [64], b ++ ([46] ++ c), rfl, ⟨64, rfl, rfl⟩, b, [46] ++ c, rfl,
      ⟨hb, fun x hx => hw x (by simp [hx])⟩, [46], c, rfl, ⟨46, rfl, rfl⟩, hc,
      fun x hx => hw x (by simp [hx])⟩

theorem phonePattern_rmatch_iff (v : JSString) :
    phonePattern.rmatch v = true ↔ TenDigits v := by
  unfold phonePattern TenDigits
  rw [RegExp.rmatch_times_cls]
  simp [isDigit]

/-! ## Facts about objects -/

namespace JSObject

variable {α : Type}

theorem lookup_cons_self (l : List (Field × α)) (j : Field) (v : α) :
    List.lookup j ((j, v) :: l) = some v := by
  simp [List.lookup]

theorem lookup_cons_ne (l : List (Field × α)) {j k : Field} (v : α) (h : j ≠ k) :
    List.lookup j ((k, v) :: l) = List.lookup j l := by
  have hb : (j == k) = false := by
    simpa using h
  simp [List.lookup, hb]

theorem lookup_setProps (l : List (Field × α)) (k j : Field) (v : α) :
    (setProps l k v).lookup j = if j = k then some v else l.lookup j := by
  induction l with
  | nil =>
    by_cases h : j = k
    · subst h
      simp [setProps, lookup_cons_self]
    · simp [setProps, lookup_cons_ne _ _ h, h]
  | cons p rest ih =>
    obtain ⟨k0, v0⟩ := p
    by_cases h0 : k0 = k
    · subst h0
      by_cases h : j = k0
      · subst h
        simp [setProps, lookup_cons_self]
      · simp [setProps, lookup_cons_ne _ _ h, h]
    · by_cases h1 : j = k0
      · subst h1
        have h : j ≠ k := h0
        simp [setProps, h0, lookup_cons_self, h]
      · simp [setProps, h0, lookup_cons_ne _ _ h1, ih]

theorem get_set (o : JSObject α) (k j : Field) (v : α) :
    (o.set k v).get j = if j = k then some v else o.get j :=
  lookup_setProps o.props k j v

theorem get_empty (j : Field) : (empty : JSObject α).get j = none :=
  rfl

theorem mem_keys_iff (o : JSObject α) (j : Field) : j ∈ o.keys ↔ ∃ v, o.get j = some v := by
  obtain ⟨l⟩ := o
  simp only [keys, get]
  induction l with
  | nil => simp
  | cons p rest ih =>
    obtain ⟨k0, v0⟩ := p
    by_cases h : j = k0
    · subst h
      simp [lookup_cons_self]
    · simp only [List.map_cons, List.mem_cons, h, false_or, lookup_cons_ne _ _ h]
      exact ih

theorem keys_eq_nil_iff (o : JSObject α) : o.keys = [] ↔ o = empty := by
  obtain ⟨l⟩ := o
  simp [keys, empty]

end JSObject

theorem message_set (errors : ErrorMap) (k j : Field) (v : Option String) :
    ErrorMap.message (errors.set k v) j = if j = k then v else errors.message j := by
  unfold ErrorMap.message
  rw [JSObject.get_set]
  by_cases h : j = k <;> simp [h]

theorem isTouched_set (touched : TouchedSet) (k j : Field) :
    TouchedSet.isTouched (touched.set k true) j = (decide (j = k) || touched.isTouched j) := by
  unfold TouchedSet.isTouched
  rw [JSObject.get_set]
  by_cases h : j = k <;> simp [h]

theorem mem_fieldKeys (k : Field) : k ∈ Field.keys := by
  cases k <;> decide

/-! ## The field rules -/

theorem validateField_email_eq (value : Value) (s : FormValues) :
    validateField "email" value s =
      if !value.truthy then some "Email is required"
      else if !emailPattern.test value then some "Email address is invalid"
      else some "" :=
  rfl

theorem validateField_phone_eq (value : Value) (s : FormValues) :
    validateField "phone" value s =
      if !value.truthy then some "Phone number is required"
      else if !phonePattern.test value then some "Phone must be 10 digits"
      else some "" :=
  rfl

/-- C1 (email rule): on the empty string the result is "Email is required"; the result is ""
exactly when the value has no white space and splits as a ++ "@" ++ b ++ "." ++ c with
non-empty a, b, c; every other non-empty value gives "Email address is invalid"; so "foo@bar"
is invalid and "foo@bar.com" is valid. -/
theorem email_rule (v : JSString) (s : FormValues) :
    (v = [] → validateField "email" (.str v) s = some "Email is required") ∧
    (validateField "email" (.str v) s = some "" ↔ EmailShape v) ∧
    (v ≠ [] → ¬ EmailShape v →
      validateField "email" (.str v) s = some "Email address is invalid") ∧
    validateField "email" (.str (js "foo@bar")) s = some "Email address is invalid" ∧
    validateField "email" (.str (js "foo@bar.com")) s = some "" := by
  simp only [validateField_email_eq, ← emailPattern_rmatch_iff, RegExp.test, Value.toJSString,
    Value.truthy]
  refine ⟨?_, ?_, ?_, by decide, by decide⟩
  · rintro rfl
    rfl
  · cases v with
    | nil => decide
    | cons a as => by_cases h : emailPattern.rmatch (a :: as) = true <;> simp [h]
  · intro h hs
    cases v with
    | nil => exact absurd rfl h
    | cons a as => simp [Bool.not_eq_true _ ▸ hs]

/-- C2 (phone rule): on the empty string the result is "Phone number is required"; the result
is "" exactly when the value has length 10 and only the digits 0 to 9; every other non-empty
value gives "Phone must be 10 digits"; so "12345" is invalid and "1234567890" is valid. -/
theorem phone_rule (v : JSString) (s : FormValues) :
    (v = [] → validateField "phone" (.str v) s = some "Phone number is required") ∧
    (validateField "phone" (.str v) s = some "" ↔ TenDigits v) ∧
    (v ≠ [] → ¬ TenDigits v →
      validateField "phone" (.str v) s = some "Phone must be 10 digits") ∧
    validateField "phone" (.str (js "12345")) s = some "Phone must be 10 digits" ∧
    validateField "phone" (.str (js "1234567890")) s = some "" := by
  simp only [validateField_phone_eq, ← phonePattern_rmatch_iff, RegExp.test, Value.toJSString,
    Value.truthy]
  refine ⟨?_, ?_, ?_, by decide, by decide⟩
  · rintro rfl
    rfl
  · cases v with
    | nil => decide
    | cons a as => by_cases h : phonePattern.rmatch (a :: as) = true <;> simp [h]
  · intro h hs
    cases v with
    | nil => exact absurd rfl h
    | cons a as => simp [Bool.not_eq_true _ ▸ hs]

/-- C3 (confirm-password rule): the result is "Confirm Password is required" on the empty
string, "Passwords do not match" on a non-empty value different from the snapshot password, and
"" on a non-empty value equal to it; so "x" against the password "y" gives "Passwords do not
match", and a non-empty value against itself is valid. -/
theorem confirmPassword_rule (v : JSString) (s : FormValues) :
    validateField "confirmPassword" (.str v) s =
        some (if v = [] then "Confirm Password is required"
          else if v ≠ s.password then "Passwords do not match"
          else "") ∧
    validateField "confirmPassword" (.str (js "x")) { s with password := js "y" } =
        some "Passwords do not match" ∧
    (v ≠ [] → validateField "confirmPassword" (.str v) { s with password := v } = some "") := by
  have key : ∀ (w : JSString) (d : FormValues), validateField "confirmPassword" (.str w) d =
      some (if w = [] then "Confirm Password is required"
        else if w ≠ d.password then "Passwords do not match"
        else "") := by
    intro w d
    cases w with
    | nil => rfl
    | cons a as =>
      simp only [validateField, Value.truthy, Value.strictNe]
      split_ifs <;> simp_all
  refine ⟨key v s, ?_, ?_⟩
  · rw [key]
    show some (if js "x" = [] then "Confirm Password is required"
      else if js "x" ≠ js "y" then "Passwords do not match" else "") = _
    decide
  · intro h
    rw [key]
    simp [h]

/-- C4 (password rule): the result is "Password is required" on the empty string, "Password
must be at least 8 characters" when the length is between 1 and 7, and "" when the length is at
least 8. -/
theorem password_rule (v : JSString) (s : FormValues) :
    (v = [] → validateField "password" (.str v) s = some "Password is required") ∧
    (1 ≤ v.length ∧ v.length < 8 →
      validateField "password" (.str v) s = some "Password must be at least 8 characters") ∧
    (8 ≤ v.length → validateField "password" (.str v) s = some "") := by
  have key : validateField "password" (.str v) s =
      some (if v = [] then "Password is required"
        else if v.length < 8 then "Password must be at least 8 characters"
        else "") := by
    cases v with
    | nil => rfl
    | cons a as =>
      simp only [validateField, Value.truthy, Value.lengthLt]
      split_ifs <;> simp_all
      omega
  refine ⟨?_, ?_, ?_⟩
  · rintro rfl
    rfl
  · rintro ⟨h1, h8⟩
    have hne : v ≠ [] := by
      rintro rfl
      simp at h1
    rw [key]
    simp [hne, h8]
  · intro h8
    have hne : v ≠ [] := by
      rintro rfl
      simp at h8
    rw [key]
    simp [hne, Nat.not_lt.mpr h8]

/-- C5 (every field is required): each of the eight string fields validated with the empty
string, and terms validated with false, yields its "required" message, a non-empty one, for
every snapshot. -/
theorem every_field_required (s : FormValues) :
    validateField "firstName" (.str []) s = some "First name is required" ∧
    validateField "lastName" (.str []) s = some "Last name is required" ∧
    validateField "email" (.str []) s = some "Email is required" ∧
    validateField "phone" (.str []) s = some "Phone number is required" ∧
    validateField "country" (.str []) s = some "Please select a country" ∧
    validateField "dob" (.str []) s = some "Date of birth is required" ∧
    validateField "password" (.str []) s = some "Password is required" ∧
    validateField "confirmPassword" (.str []) s = some "Confirm Password is required" ∧
    validateField "terms" (.bool false) s = some "You must accept the terms" ∧
    ∀ k : Field, ∃ msg, validateField k.name (initialForm.get k) s = some msg ∧ msg ≠ "" := by
  refine ⟨rfl, rfl, rfl, rfl, rfl, rfl, rfl, rfl, rfl, ?_⟩
  intro k
  cases k <;> exact ⟨_, rfl, by decide⟩

/-- C6 (presence-only rules): firstName and lastName give their required message exactly when
the trimmed value is empty, that is when the value consists of white space only, and ""
otherwise; country and dob give "" for every non-empty value and their required message for the
empty string; terms gives "" exactly when the checkbox value is true. -/
theorem presence_rules (v : JSString) (b : Bool) (s : FormValues) :
    (trim v = [] ↔ ∀ c ∈ v, isWhiteSpace c = true) ∧
    validateField "firstName" (.str v) s =
      some (if trim v = [] then "First name is required" else "") ∧
    validateField "lastName" (.str v) s =
      some (if trim v = [] then "Last name is required" else "") ∧
    validateField "country" (.str v) s =
      some (if v = [] then "Please select a country" else "") ∧
    validateField "dob" (.str v) s =
      some (if v = [] then "Date of birth is required" else "") ∧
    validateField "terms" (.bool b) s =
      some (if b = true then "" else "You must accept the terms") ∧
    (validateField "terms" (.bool b) s = some "" ↔ b = true) := by
  refine ⟨trim_eq_nil_iff v, ?_, ?_, ?_, ?_, ?_, ?_⟩
  · by_cases h : trim v = [] <;> simp [validateField, Value.trim, h]
  · by_cases h : trim v = [] <;> simp [validateField, Value.trim, h]
  · cases v <;> simp [validateField, Value.truthy]
  · cases v <;> simp [validateField, Value.truthy]
  · cases b <;> simp [validateField, Value.truthy]
  · cases b <;> simp [validateField, Value.truthy]

/-! ## Whole-form validation -/

theorem validateField_target (e : Target) (d : FormValues) :
    ∃ msg, validateField e.name.name e.newValue d = some msg := by
  obtain ⟨k, v, b⟩ := e
  cases k
  case firstName =>
    show ∃ msg, (if (trim v).isEmpty then some "First name is required" else some "") = some msg
    split_ifs <;> exact ⟨_, rfl⟩
  case lastName =>
    show ∃ msg, (if (trim v).isEmpty then some "Last name is required" else some "") = some msg
    split_ifs <;> exact ⟨_, rfl⟩
  case email =>
    show ∃ msg, validateField "email" (.str v) d = some msg
    rw [validateField_email_eq]
    split_ifs <;> exact ⟨_, rfl⟩
  case phone =>
    show ∃ msg, validateField "phone" (.str v) d = some msg
    rw [validateField_phone_eq]
    split_ifs <;> exact ⟨_, rfl⟩
  case country =>
    show ∃ msg, (if !(Value.str v).truthy then some "Please select a country" else some "")
      = some msg
    split_ifs <;> exact ⟨_, rfl⟩
  case dob =>
    show ∃ msg, (if !(Value.str v).truthy then some "Date of birth is required" else some "")
      = some msg
    split_ifs <;> exact ⟨_, rfl⟩
  case password =>
    show ∃ msg, (if !(Value.str v).truthy then some "Password is required"
      else if (Value.str v).lengthLt 8 then some "Password must be at least 8 characters"
      else some "") = some msg
    split_ifs <;> exact ⟨_, rfl⟩
  case confirmPassword =>
    show ∃ msg, (if !(Value.str v).truthy then some "Confirm Password is required"
      else if (Value.str v).strictNe d.password then some "Passwords do not match"
      else some "") = some msg
    split_ifs <;> exact ⟨_, rfl⟩
  case terms =>
    show ∃ msg, (if !(Value.bool b).truthy then some "You must accept the terms" else some "")
      = some msg
    split_ifs <;> exact ⟨_, rfl⟩

theorem validateField_stored (d : FormValues) (k : Field) :
    validateField k.name (d.get k) d = some (fieldMessage d k) := by
  obtain ⟨v, hv⟩ : ∃ v, d.get k = Target.newValue ⟨k, v, d.terms⟩ := by
    cases k
    case terms => exact ⟨[], rfl⟩
    all_goals exact ⟨_, rfl⟩
  obtain ⟨msg, hmsg⟩ := validateField_target ⟨k, v, d.terms⟩ d
  unfold fieldMessage
  rw [hv]
  simp only at hmsg
  rw [hmsg]
  rfl

theorem foldlM_eq_collectErrors (d : FormValues) (ks : List Field) (acc : ErrorMap) :
    ks.foldlM
        (fun (nextErrors : ErrorMap) key => do
          let msg ← validateField key.name (d.get key) d
          pure (if msg ≠ "" then nextErrors.set key (some msg) else nextErrors))
        acc
      = some (collectErrors d ks acc) := by
  induction ks generalizing acc with
  | nil => rfl
  | cons k ks ih =>
    rw [List.foldlM_cons, validateField_stored]
    exact ih _

theorem validateForm_eq (d : FormValues) :
    validateForm d = some (collectErrors d Field.keys JSObject.empty,
      (collectErrors d Field.keys JSObject.empty).keys.length == 0) := by
  unfold validateForm
  rw [foldlM_eq_collectErrors]
  rfl

theorem get_collectErrors (d : FormValues) (ks : List Field) (acc : ErrorMap) (k : Field) :
    (collectErrors d ks acc).get k =
      if k ∈ ks ∧ fieldMessage d k ≠ "" then some (some (fieldMessage d k)) else acc.get k := by
  induction ks generalizing acc with
  | nil => simp [collectErrors]
  | cons j ks ih =>
    have hstep : collectErrors d (j :: ks) acc =
        collectErrors d ks
          (if fieldMessage d j ≠ "" then acc.set j (some (fieldMessage d j)) else acc) := rfl
    rw [hstep, ih]
    by_cases hk : k ∈ ks ∧ fieldMessage d k ≠ ""
    · have hk1 : k ∈ j :: ks ∧ fieldMessage d k ≠ "" := ⟨List.mem_cons_of_mem j hk.1, hk.2⟩
      rw [if_pos hk, if_pos hk1]
    · rw [if_neg hk]
      by_cases hj : k = j
      · subst hj
        by_cases hm : fieldMessage d k ≠ ""
        · rw [if_pos hm, if_pos ⟨List.mem_cons_self k ks, hm⟩, JSObject.get_set, if_pos rfl]
        · have hneg : ¬ (k ∈ k :: ks ∧ fieldMessage d k ≠ "") := fun h => hm h.2
          rw [if_neg hm, if_neg hneg]
      · have hneg : ¬ (k ∈ j :: ks ∧ fieldMessage d k ≠ "") := by
          rintro ⟨hmem, hm⟩
          rcases List.mem_cons.mp hmem with h | h
          · exact hj h
          · exact hk ⟨h, hm⟩
        rw [if_neg hneg]
        by_cases hm : fieldMessage d j ≠ ""
        · rw [if_pos hm, JSObject.get_set, if_neg hj]
        · rw [if_neg hm]

theorem get_nextErrors (d : FormValues) (k : Field) :
    (collectErrors d Field.keys JSObject.empty).get k =
      if fieldMessage d k ≠ "" then some (some (fieldMessage d k)) else none := by
  rw [get_collectErrors]
  by_cases hm : fieldMessage d k ≠ ""
  · rw [if_pos ⟨mem_fieldKeys k, hm⟩, if_pos hm]
  · rw [if_neg (fun h => hm h.2), if_neg hm]
    rfl

theorem mem_keys_nextErrors (d : FormValues) (k : Field) :
    k ∈ (collectErrors d Field.keys JSObject.empty).keys ↔ fieldMessage d k ≠ "" := by
  rw [JSObject.mem_keys_iff, get_nextErrors]
  by_cases hm : fieldMessage d k ≠ ""
  · simp [hm]
  · simp [hm]

theorem nextErrors_eq_empty_iff (d : FormValues) :
    collectErrors d Field.keys JSObject.empty = JSObject.empty ↔
      ∀ k : Field, fieldMessage d k = "" := by
  constructor
  · intro h k
    by_contra hm
    have hk := (mem_keys_nextErrors d k).mpr hm
    rw [h] at hk
    simp [JSObject.keys, JSObject.empty] at hk
  · intro h
    rw [← JSObject.keys_eq_nil_iff, List.eq_nil_iff_forall_not_mem]
    intro k hk
    exact (mem_keys_nextErrors d k).mp hk (h k)

theorem validateForm_ok_iff (d : FormValues) :
    ((collectErrors d Field.keys JSObject.empty).keys.length == 0) = true ↔
      collectErrors d Field.keys JSObject.empty = JSObject.empty := by
  rw [← JSObject.keys_eq_nil_iff, beq_iff_eq, List.length_eq_zero]

theorem fieldMessage_eq_iff (d : FormValues) (k : Field) (msg : String) :
    validateField k.name (d.get k) d = some msg ↔ fieldMessage d k = msg := by
  rw [validateField_stored]
  exact Option.some_inj

theorem isTouched_allTouched (k : Field) : allTouched.isTouched k = true := by
  cases k <;> decide

theorem get_allTouched (k : Field) : allTouched.get k = some true := by
  cases k <;> decide

theorem handleSubmit_eq (s : State) :
    handleSubmit s = some
      (if collectErrors s.formData Field.keys JSObject.empty = JSObject.empty then State.initial
       else { formData := s.formData,
              errors := collectErrors s.formData Field.keys JSObject.empty,
              touched := allTouched }) := by
  unfold handleSubmit
  rw [validateForm_eq]
  by_cases h : collectErrors s.formData Field.keys JSObject.empty = JSObject.empty
  · have hok := (validateForm_ok_iff s.formData).mpr h
    simp only [Option.bind_eq_bind, Option.some_bind, hok, if_true, h]
    rfl
  · have hok : ((collectErrors s.formData Field.keys JSObject.empty).keys.length == 0) = false := by
      rw [← Bool.not_eq_true, validateForm_ok_iff]
      exact h
    simp only [Option.bind_eq_bind, Option.some_bind, hok, Bool.false_eq_true, if_false, h]
    rfl

/-- C7 (whole-form validation): `validateForm` returns; the object it produces has an entry
for a key exactly when `validateField` gives a non-empty message for the stored value of that
key, and the entry is that message; the returned boolean is true exactly when the object is
empty, that is when all nine fields validate to ""; and nothing of it depends on the previous
`errors` object. -/
theorem validateForm_aggregates (d : FormValues) :
    ∃ nextErrors ok, validateForm d = some (nextErrors, ok) ∧
      (∀ k : Field, ∃ msg, validateField k.name (d.get k) d = some msg ∧
        (k ∈ nextErrors.keys ↔ msg ≠ "") ∧
        nextErrors.get k = (if msg ≠ "" then some (some msg) else none)) ∧
      (ok = true ↔ nextErrors = JSObject.empty) ∧
      (ok = true ↔ ∀ k : Field, validateField k.name (d.get k) d = some "") ∧
      ∀ (errors errors1 : ErrorMap) (touched : TouchedSet),
        handleSubmit ⟨d, errors, touched⟩ = handleSubmit ⟨d, errors1, touched⟩ := by
  refine ⟨_, _, validateForm_eq d, ?_, validateForm_ok_iff d, ?_, ?_⟩
  · intro k
    exact ⟨fieldMessage d k, validateField_stored d k, mem_keys_nextErrors d k,
      get_nextErrors d k⟩
  · rw [validateForm_ok_iff, nextErrors_eq_empty_iff]
    simp only [fieldMessage_eq_iff]
  · intro errors errors1 touched
    rw [handleSubmit_eq, handleSubmit_eq]

/-- C8 (successful submit): `handleSubmit` yields the initial state (`initialForm`, all strings
empty and terms false, with empty `errors` and empty `touched`) exactly when all nine fields
validate to "" against the current values, whatever `errors` and `touched` held before. -/
theorem submit_valid_resets (s : State) :
    (handleSubmit s =
        some { formData := initialForm, errors := JSObject.empty, touched := JSObject.empty } ↔
      ∀ k : Field, validateField k.name (s.formData.get k) s.formData = some "") ∧
    initialForm = { firstName := [], lastName := [], email := [], phone := [], country := [],
                    dob := [], password := [], confirmPassword := [], terms := false } := by
  refine ⟨?_, rfl⟩
  rw [handleSubmit_eq]
  simp only [fieldMessage_eq_iff, ← nextErrors_eq_empty_iff]
  by_cases h : collectErrors s.formData Field.keys JSObject.empty = JSObject.empty
  · simp only [h, if_true, iff_true]
    rfl
  · simp only [h, if_false, iff_false]
    intro heq
    have ht : allTouched = JSObject.empty := congrArg State.touched (Option.some.inj heq)
    exact absurd ht (by decide)

/-- C9 (failed submit): when some field validates to a non-empty message, `handleSubmit`
returns a state with the same `formData`, with `touched` true for all nine fields, and with an
`errors` object holding exactly the failing fields with their messages, whatever `errors` held
before. -/
theorem submit_invalid_keeps (s : State)
    (h : ∃ k : Field, ∃ msg,
      validateField k.name (s.formData.get k) s.formData = some msg ∧ msg ≠ "") :
    ∃ s1, handleSubmit s = some s1 ∧ s1.formData = s.formData ∧
      (∀ k : Field, s1.touched.get k = some true) ∧
      ∀ k : Field, ∃ msg, validateField k.name (s.formData.get k) s.formData = some msg ∧
        (k ∈ s1.errors.keys ↔ msg ≠ "") ∧
        s1.errors.get k = (if msg ≠ "" then some (some msg) else none) := by
  obtain ⟨k0, msg0, h0, hne0⟩ := h
  have hne : collectErrors s.formData Field.keys JSObject.empty ≠ JSObject.empty := by
    intro hempty
    rw [nextErrors_eq_empty_iff] at hempty
    exact hne0 (((fieldMessage_eq_iff _ _ _).mp h0).symm.trans (hempty k0))
  refine ⟨_, handleSubmit_eq s, ?_⟩
  rw [if_neg hne]
  refine ⟨rfl, ?_, ?_⟩
  · intro k
    exact get_allTouched k
  · intro k
    exact ⟨fieldMessage s.formData k, validateField_stored _ k, mem_keys_nextErrors _ k,
      get_nextErrors _ k⟩

/-- The failed submit at the sample state, where only the terms fail and a stale email error is
present before the submit. -/
theorem submit_invalid_keeps_witness :
    (∃ k : Field, ∃ msg,
      validateField k.name (sampleState.formData.get k) sampleState.formData = some msg ∧
        msg ≠ "") ∧
    ∃ s1, handleSubmit sampleState = some s1 ∧ s1.formData = sampleState.formData ∧
      (∀ k : Field, s1.touched.get k = some true) ∧
      ∀ k : Field, ∃ msg,
        validateField k.name (sampleState.formData.get k) sampleState.formData = some msg ∧
        (k ∈ s1.errors.keys ↔ msg ≠ "") ∧
        s1.errors.get k = (if msg ≠ "" then some (some msg) else none) :=
  ⟨⟨.terms, "You must accept the terms", by decide, by decide⟩,
    submit_invalid_keeps sampleState
      ⟨.terms, "You must accept the terms", by decide, by decide⟩⟩

/-! ## Editing and leaving a field -/

theorem validateField_target_eq (e : Target) (d : FormValues) :
    validateField e.name.name e.newValue d = some (targetMessage e d) := by
  obtain ⟨msg, hmsg⟩ := validateField_target e d
  unfold targetMessage
  rw [hmsg]
  rfl

theorem get_update_self (d : FormValues) (e : Target) :
    (d.update e).get e.name = e.newValue := by
  obtain ⟨k, v, b⟩ := e
  cases k <;> rfl

theorem validateField_update (e : Target) (d : FormValues) :
    validateField e.name.name e.newValue (d.update e) =
      validateField e.name.name e.newValue d := by
  obtain ⟨k, v, b⟩ := e
  cases k <;> rfl

theorem handleChange_eq (s : State) (e : Target) :
    handleChange s e = some
      (if s.touched.isTouched e.name = true then
        { formData := s.formData.update e,
          errors := s.errors.set e.name (orUndefined (targetMessage e (s.formData.update e))),
          touched := s.touched }
       else { formData := s.formData.update e, errors := s.errors, touched := s.touched }) := by
  unfold handleChange
  by_cases h : s.touched.isTouched e.name = true
  · simp only [h, if_true, validateField_target_eq]
    rfl
  · simp only [h, if_false]
    rfl

theorem handleBlur_eq (s : State) (e : Target) :
    handleBlur s e = some
      { formData := s.formData,
        errors := s.errors.set e.name (orUndefined (targetMessage e s.formData)),
        touched := s.touched.set e.name true } := by
  unfold handleBlur
  simp only [validateField_target_eq]
  rfl

theorem message_initial (k : Field) : State.initial.errors.message k = none :=
  rfl

/-- In a reachable state a field that is not touched has no error. -/
theorem untouched_message_none {s : State} (hs : Reachable s) :
    ∀ k : Field, s.touched.isTouched k = false → s.errors.message k = none := by
  induction hs with
  | init =>
    intro k _
    exact message_initial k
  | @step s s1 ev _ hstep ih =>
    intro k hk
    cases ev with
    | change e =>
      have h1 : some s1 = _ := hstep.symm.trans (handleChange_eq s e)
      rw [Option.some.inj h1] at hk ⊢
      by_cases ht : s.touched.isTouched e.name = true
      · rw [if_pos ht] at hk ⊢
        have hne : k ≠ e.name := by
          rintro rfl
          rw [ht] at hk
          exact Bool.noConfusion hk
        show ErrorMap.message (s.errors.set e.name _) k = none
        rw [message_set, if_neg hne]
        exact ih k hk
      · rw [if_neg ht] at hk ⊢
        exact ih k hk
    | blur e =>
      have h1 : some s1 = _ := hstep.symm.trans (handleBlur_eq s e)
      rw [Option.some.inj h1] at hk ⊢
      have hk1 : (decide (k = e.name) || s.touched.isTouched k) = false :=
        (isTouched_set s.touched e.name k).symm.trans hk
      rw [Bool.or_eq_false_iff] at hk1
      have hne : k ≠ e.name := of_decide_eq_false hk1.1
      show ErrorMap.message (s.errors.set e.name _) k = none
      rw [message_set, if_neg hne]
      exact ih k hk1.2
    | submit =>
      have h1 : some s1 = _ := hstep.symm.trans (handleSubmit_eq s)
      rw [Option.some.inj h1] at hk ⊢
      by_cases hv : collectErrors s.formData Field.keys JSObject.empty = JSObject.empty
      · rw [if_pos hv]
        exact message_initial k
      · rw [if_neg hv] at hk
        have ht : allTouched.isTouched k = false := hk
        rw [isTouched_allTouched] at ht
        exact Bool.noConfusion ht

/-- C10 (errors are deferred until blur): in a reachable state, for a field that is not touched
and a new value that `validateField` rejects with message `msg`, `handleChange` leaves the
`errors` object unchanged, so that it shows no error for the field, and a following
`handleBlur` with the same value sets the field's error to `msg`, the message of
`validateField` against the updated `formData`. -/
theorem errors_deferred_until_blur (s : State) (e : Target) (msg : String)
    (hs : Reachable s) (hu : s.touched.isTouched e.name = false)
    (hv : validateField e.name.name e.newValue s.formData = some msg) (hne : msg ≠ "") :
    ∃ s1 s2, handleChange s e = some s1 ∧ s1.errors = s.errors ∧
      s1.errors.message e.name = none ∧
      handleBlur s1 e = some s2 ∧
      validateField e.name.name e.newValue s1.formData = some msg ∧
      s2.errors.message e.name = some msg := by
  have hmsg : targetMessage e (s.formData.update e) = msg := by
    have h1 := validateField_target_eq e (s.formData.update e)
    rw [validateField_update, hv] at h1
    exact (Option.some.inj h1).symm
  have hnt : ¬ s.touched.isTouched e.name = true := by
    rw [hu]
    exact Bool.false_ne_true
  have hc : handleChange s e =
      some { formData := s.formData.update e, errors := s.errors, touched := s.touched } := by
    rw [handleChange_eq, if_neg hnt]
  refine ⟨_, _, hc, rfl, untouched_message_none hs e.name hu, handleBlur_eq _ e, ?_, ?_⟩
  · show validateField e.name.name e.newValue (s.formData.update e) = some msg
    rw [validateField_update, hv]
  · show ErrorMap.message (s.errors.set e.name
      (orUndefined (targetMessage e (s.formData.update e)))) e.name = some msg
    rw [message_set, if_pos rfl, hmsg]
    unfold orUndefined
    rw [if_pos hne]

/-- The deferred error when typing "foo@bar" into the untouched email field of the initial state. -/
theorem errors_deferred_until_blur_witness :
    (Reachable State.initial ∧
      State.initial.touched.isTouched Field.email = false ∧
      validateField "email" (Target.newValue ⟨.email, js "foo@bar", false⟩)
        State.initial.formData = some "Email address is invalid" ∧
      "Email address is invalid" ≠ "") ∧
    ∃ s1 s2, handleChange State.initial ⟨.email, js "foo@bar", false⟩ = some s1 ∧
      s1.errors = State.initial.errors ∧
      s1.errors.message Field.email = none ∧
      handleBlur s1 ⟨.email, js "foo@bar", false⟩ = some s2 ∧
      validateField "email" (Target.newValue ⟨.email, js "foo@bar", false⟩) s1.formData =
        some "Email address is invalid" ∧
      s2.errors.message Field.email = some "Email address is invalid" :=
  ⟨⟨Reachable.init, by decide, by decide, by decide⟩,
    errors_deferred_until_blur State.initial ⟨.email, js "foo@bar", false⟩
      "Email address is invalid" Reachable.init (by decide) (by decide) (by decide)⟩

/-! ## The steps as frame conditions -/

theorem get_update_ne (d : FormValues) (e : Target) (k : Field) (h : k ≠ e.name) :
    (d.update e).get k = d.get k := by
  obtain ⟨n, v, b⟩ := e
  cases n <;> cases k <;> first | rfl | exact absurd rfl h

theorem orUndefined_eq (msg : String) :
    orUndefined msg = if msg = "" then none else some msg := by
  unfold orUndefined
  by_cases h : msg = "" <;> simp [h]

/-- C11 (change step): `handleChange` returns a state in which the edited field holds the new
value and every other field its old one, with `touched` unchanged; when the field is touched
its error becomes the message of `validateField` against the updated values (no error for "")
and every other entry of `errors` is unchanged; when it is not touched `errors` is unchanged. -/
theorem handleChange_frame (s : State) (e : Target) :
    ∃ s1, handleChange s e = some s1 ∧
      s1.formData.get e.name = e.newValue ∧
      (∀ k : Field, k ≠ e.name → s1.formData.get k = s.formData.get k) ∧
      s1.touched = s.touched ∧
      (s.touched.isTouched e.name = true →
        ∃ msg, validateField e.name.name e.newValue s1.formData = some msg ∧
          s1.errors.message e.name = (if msg = "" then none else some msg) ∧
          ∀ k : Field, k ≠ e.name → s1.errors.get k = s.errors.get k) ∧
      (s.touched.isTouched e.name = false → s1.errors = s.errors) := by
  refine ⟨_, handleChange_eq s e, ?_⟩
  by_cases ht : s.touched.isTouched e.name = true
  · rw [if_pos ht]
    refine ⟨get_update_self _ e, fun k hk => get_update_ne _ e k hk, rfl, ?_, ?_⟩
    · intro _
      refine ⟨_, validateField_target_eq e (s.formData.update e), ?_, ?_⟩
      · show ErrorMap.message (s.errors.set e.name _) e.name = _
        rw [message_set, if_pos rfl, orUndefined_eq]
      · intro k hk
        show (s.errors.set e.name _).get k = _
        rw [JSObject.get_set, if_neg hk]
    · intro hf
      rw [ht] at hf
      exact Bool.noConfusion hf
  · rw [if_neg ht]
    exact ⟨get_update_self _ e, fun k hk => get_update_ne _ e k hk, rfl,
      fun h => absurd h ht, fun _ => rfl⟩

/-- C12 (blur step): `handleBlur` returns a state in which the field is touched and its error
is the message of `validateField` for the event value against the current values (no error
for ""), while `formData`, every other touched flag and every other entry of `errors` are
unchanged. -/
theorem handleBlur_frame (s : State) (e : Target) :
    ∃ s1, handleBlur s e = some s1 ∧
      s1.touched.get e.name = some true ∧
      (∃ msg, validateField e.name.name e.newValue s.formData = some msg ∧
        s1.errors.message e.name = (if msg = "" then none else some msg)) ∧
      s1.formData = s.formData ∧
      (∀ k : Field, k ≠ e.name → s1.touched.get k = s.touched.get k) ∧
      (∀ k : Field, k ≠ e.name → s1.errors.get k = s.errors.get k) := by
  refine ⟨_, handleBlur_eq s e, ?_, ?_, rfl, ?_, ?_⟩
  · show (s.touched.set e.name true).get e.name = _
    rw [JSObject.get_set, if_pos rfl]
  · refine ⟨_, validateField_target_eq e s.formData, ?_⟩
    show ErrorMap.message (s.errors.set e.name _) e.name = _
    rw [message_set, if_pos rfl, orUndefined_eq]
  · intro k hk
    show (s.touched.set e.name true).get k = _
    rw [JSObject.get_set, if_neg hk]
  · intro k hk
    show (s.errors.set e.name _).get k = _
    rw [JSObject.get_set, if_neg hk]

/-! ## Reachable states -/

theorem reachableBy_runBy {guard : State → Event → Bool} (evs : List Event) :
    ∀ {s s1 : State}, ReachableBy guard s → runBy guard s evs = some s1 →
      ReachableBy guard s1 := by
  induction evs with
  | nil =>
    intro s s1 hs hrun
    rw [← Option.some.inj hrun]
    exact hs
  | cons ev evs ih =>
    intro s s1 hs hrun
    unfold runBy at hrun
    by_cases hg : guard s ev = true
    · rw [if_pos hg] at hrun
      cases hstep : step s ev with
      | none =>
        rw [hstep] at hrun
        exact absurd hrun (by simp)
      | some s2 =>
        rw [hstep] at hrun
        exact ih (ReachableBy.step ev hs hg hstep) hrun
    · rw [if_neg hg] at hrun
      exact absurd hrun (by simp)

theorem reachable_of_reachableBy {guard : State → Event → Bool} {s : State}
    (hs : ReachableBy guard s) : Reachable s := by
  induction hs with
  | init => exact Reachable.init
  | step ev _ _ hstep ih => exact Reachable.step ev ih hstep

theorem reachableBy_blurState : ReachableBy storedBlur blurState :=
  reachableBy_runBy blurTrace ReachableBy.init (by decide)

/-- C13 (errors only on touched fields): in every state reachable from the initial state by
change, blur and submit events, a field whose `errors` entry is a message is marked true in
`touched`. -/
theorem errors_only_on_touched (s : State) (hs : Reachable s) (k : Field) (msg : String)
    (h : s.errors.message k = some msg) : s.touched.get k = some true := by
  by_contra hk
  have hf : s.touched.isTouched k = false := by
    unfold TouchedSet.isTouched
    rw [beq_eq_false_iff_ne]
    exact hk
  rw [untouched_message_none hs k hf] at h
  exact Option.noConfusion h

/-- The required email error of the state reached by leaving the empty email field. -/
theorem errors_only_on_touched_witness :
    (Reachable blurState ∧ blurState.errors.message Field.email = some "Email is required") ∧
    blurState.touched.get Field.email = some true :=
  ⟨⟨reachable_of_reachableBy reachableBy_blurState, by decide⟩,
    errors_only_on_touched blurState (reachable_of_reachableBy reachableBy_blurState)
      Field.email "Email is required" (by decide)⟩

/-- C14 (snapshot independence): for a name other than "confirmPassword" the result of
`validateField` is the same for any two snapshots, and for every name it is the same for two
snapshots with the same password; so the result depends on the name, the value and the
snapshot password only. -/
theorem snapshot_independence (name : String) (v : Value) (s1 s2 : FormValues) :
    (name ≠ "confirmPassword" → validateField name v s1 = validateField name v s2) ∧
    (s1.password = s2.password → validateField name v s1 = validateField name v s2) := by
  constructor
  · intro hname
    unfold validateField
    split <;> first | rfl | exact absurd rfl hname
  · intro hpw
    unfold validateField
    split <;> first | rfl | rw [hpw]

/-- C16 (unrecognised names pass): for a name that is none of the nine keys, `validateField`
returns "" for every value and every snapshot. -/
theorem unknown_name_passes (name : String) (v : Value) (s : FormValues)
    (h : name ∉ Field.keys.map Field.name) : validateField name v s = some "" := by
  unfold validateField
  split <;> first | rfl | exact absurd (by decide) h

/-- The name "nickname" with the checkbox value true, against the initial form. -/
theorem unknown_name_passes_witness :
    "nickname" ∉ Field.keys.map Field.name ∧
    validateField "nickname" (.bool true) initialForm = some "" :=
  ⟨by decide, unknown_name_passes "nickname" (.bool true) initialForm (by decide)⟩

/-! ## Touched fields and their current validity -/

theorem validateField_congr_password (name : String) (v : Value) (s1 s2 : FormValues)
    (h : name ≠ "confirmPassword" ∨ s1.password = s2.password) :
    validateField name v s1 = validateField name v s2 := by
  unfold validateField
  rcases h with h | h
  · split <;> first | rfl | exact absurd rfl h
  · split <;> first | rfl | rw [h]

theorem name_ne_confirmPassword {k : Field} (h : k ≠ Field.confirmPassword) :
    k.name ≠ "confirmPassword" := by
  cases k <;> first | exact absurd rfl h | decide

theorem password_update_ne (d : FormValues) (e : Target) (h : e.name ≠ Field.password) :
    (d.update e).password = d.password := by
  obtain ⟨n, v, b⟩ := e
  cases n <;> first | rfl | exact absurd rfl h

theorem fieldMessage_update_ne (d : FormValues) (e : Target) (k : Field) (hne : k ≠ e.name)
    (hdep : k = Field.confirmPassword → e.name ≠ Field.password) :
    fieldMessage (d.update e) k = fieldMessage d k := by
  unfold fieldMessage
  rw [get_update_ne d e k hne]
  by_cases hk : k = Field.confirmPassword
  · rw [validateField_congr_password _ _ _ d (Or.inr (password_update_ne d e (hdep hk)))]
  · rw [validateField_congr_password _ _ _ d (Or.inl (name_ne_confirmPassword hk))]

theorem fieldMessage_update_self (d : FormValues) (e : Target) :
    fieldMessage (d.update e) e.name = targetMessage e (d.update e) := by
  unfold fieldMessage targetMessage
  rw [get_update_self]

theorem fieldMessage_of_stored (d : FormValues) (e : Target)
    (h : e.newValue = d.get e.name) : targetMessage e d = fieldMessage d e.name := by
  unfold fieldMessage targetMessage
  rw [h]

theorem message_nextErrors (d : FormValues) (k : Field) :
    ErrorMap.message (collectErrors d Field.keys JSObject.empty) k =
      orUndefined (fieldMessage d k) := by
  unfold ErrorMap.message orUndefined
  rw [get_nextErrors]
  by_cases h : fieldMessage d k ≠ ""
  · rw [if_pos h, if_pos h]
    rfl
  · rw [if_neg h, if_neg h]
    rfl

theorem isTouched_initial (k : Field) : State.initial.touched.isTouched k = false :=
  rfl

/-- One event keeps a touched field in step with its rule, unless the event edits the password
while the field is the touched confirmation. -/
theorem step_synced {s s1 : State} {ev : Event} (hg : storedBlur s ev = true)
    (hstep : step s ev = some s1) (k : Field) (hk : s1.touched.isTouched k = true)
    (hprev : s.touched.isTouched k = true →
      s.errors.message k = orUndefined (fieldMessage s.formData k))
    (hdep : k = Field.confirmPassword → ∀ e, ev = Event.change e → e.name = Field.password →
      s.touched.isTouched Field.confirmPassword = false) :
    s1.errors.message k = orUndefined (fieldMessage s1.formData k) := by
  cases ev with
  | change e =>
    have h1 : some s1 = _ := hstep.symm.trans (handleChange_eq s e)
    have hs1 := Option.some.inj h1
    have htouched : s1.touched = s.touched := by
      rw [hs1]
      split <;> rfl
    have hform : s1.formData = s.formData.update e := by
      rw [hs1]
      split <;> rfl
    rw [htouched] at hk
    rw [hform]
    by_cases hke : k = e.name
    · subst hke
      rw [hs1, if_pos hk]
      show ErrorMap.message (s.errors.set e.name _) e.name = _
      rw [message_set, if_pos rfl, fieldMessage_update_self]
    · have hmsg : s1.errors.message k = s.errors.message k := by
        rw [hs1]
        split
        · show ErrorMap.message (s.errors.set e.name _) k = _
          rw [message_set, if_neg hke]
        · rfl
      have hd : k = Field.confirmPassword → e.name ≠ Field.password := by
        intro hcp hpw
        have hf := hdep hcp e rfl hpw
        rw [hcp] at hk
        rw [hk] at hf
        exact Bool.noConfusion hf
      rw [hmsg, fieldMessage_update_ne _ e k hke hd]
      exact hprev hk
  | blur e =>
    have h1 : some s1 = _ := hstep.symm.trans (handleBlur_eq s e)
    have hs1 := Option.some.inj h1
    have hstored : e.newValue = s.formData.get e.name := of_decide_eq_true hg
    rw [hs1] at hk ⊢
    by_cases hke : k = e.name
    · subst hke
      show ErrorMap.message (s.errors.set e.name _) e.name = orUndefined (fieldMessage s.formData _)
      rw [message_set, if_pos rfl, fieldMessage_of_stored _ e hstored]
    · have hk1 : (decide (k = e.name) || s.touched.isTouched k) = true :=
        (isTouched_set s.touched e.name k).symm.trans hk
      rw [Bool.or_eq_true, decide_eq_true_eq] at hk1
      rcases hk1 with hk1 | hk1
      · exact absurd hk1 hke
      · show ErrorMap.message (s.errors.set e.name _) k = orUndefined (fieldMessage s.formData k)
        rw [message_set, if_neg hke]
        exact hprev hk1
  | submit =>
    have h1 : some s1 = _ := hstep.symm.trans (handleSubmit_eq s)
    have hs1 := Option.some.inj h1
    rw [hs1] at hk ⊢
    by_cases hv : collectErrors s.formData Field.keys JSObject.empty = JSObject.empty
    · rw [if_pos hv] at hk
      rw [isTouched_initial] at hk
      exact Bool.noConfusion hk
    · rw [if_neg hv]
      exact message_nextErrors s.formData k

theorem synced_message (s : State) (k : Field) :
    s.errors.message k = orUndefined (fieldMessage s.formData k) →
    ∃ msg, validateField k.name (s.formData.get k) s.formData = some msg ∧
      s.errors.message k = (if msg = "" then none else some msg) := by
  intro h
  exact ⟨_, validateField_stored s.formData k, h.trans (orUndefined_eq _)⟩

theorem storedBlur_of_passwordKept {s : State} {ev : Event}
    (h : passwordKept s ev = true) : storedBlur s ev = true := by
  cases ev with
  | change e => rfl
  | blur e => exact h
  | submit => rfl

theorem reachableBy_matchingState : ReachableBy passwordKept matchingState :=
  reachableBy_runBy matchingTrace ReachableBy.init (by decide)

theorem reachableBy_staleState : ReachableBy storedBlur staleState :=
  reachableBy_runBy staleTrace ReachableBy.init (by decide)

/-- C15, as stated, fails: after typing a password, typing and leaving the same confirmation,
and typing another password (every blur carrying the stored value), the confirmation is touched
and `validateField` rejects it with "Passwords do not match", yet `errors` holds no message
for it. -/
theorem touched_confirmPassword_stale :
    runBy storedBlur State.initial staleTrace = some staleState ∧
    ReachableBy storedBlur staleState ∧
    staleState.touched.isTouched Field.confirmPassword = true ∧
    validateField "confirmPassword" (staleState.formData.get Field.confirmPassword)
      staleState.formData = some "Passwords do not match" ∧
    staleState.errors.message Field.confirmPassword = none :=
  ⟨by decide, reachableBy_staleState, by decide, by decide, by decide⟩

theorem handleChange_password_keeps (t : State) (e : Target)
    (hpw : e.name = Field.password) :
    ∃ t1, handleChange t e = some t1 ∧ t1.touched = t.touched ∧
      t1.errors.get Field.confirmPassword = t.errors.get Field.confirmPassword ∧
      t1.errors.message Field.confirmPassword = t.errors.message Field.confirmPassword := by
  have hne : Field.confirmPassword ≠ e.name := by
    rw [hpw]
    decide
  refine ⟨_, handleChange_eq t e, ?_⟩
  by_cases ht : t.touched.isTouched e.name = true
  · rw [if_pos ht]
    refine ⟨rfl, ?_, ?_⟩
    · show (t.errors.set e.name _).get Field.confirmPassword = _
      rw [JSObject.get_set, if_neg hne]
    · show ErrorMap.message (t.errors.set e.name _) Field.confirmPassword = _
      rw [message_set, if_neg hne]
  · rw [if_neg ht]
    exact ⟨rfl, rfl, rfl⟩

/-- C15, amended: in every state reached from the initial state by change, blur and submit
events in which each blur carries the stored value and the password is not edited while the
confirmation is touched, the error of every touched field is the message of `validateField`
for its stored value against the current values (no error for ""); and an edit of the
password, in any state, returns a state with the same `touched` and the same `errors` entry
for confirmPassword, so that a touched confirmation keeps whatever error it had. -/
theorem touched_shows_validity (s : State) (hs : ReachableBy passwordKept s) (k : Field)
    (ht : s.touched.isTouched k = true) :
    (∃ msg, validateField k.name (s.formData.get k) s.formData = some msg ∧
      s.errors.message k = (if msg = "" then none else some msg)) ∧
    ∀ (t : State) (e : Target), e.name = Field.password →
      ∃ t1, handleChange t e = some t1 ∧ t1.touched = t.touched ∧
        t1.errors.get Field.confirmPassword = t.errors.get Field.confirmPassword ∧
        t1.errors.message Field.confirmPassword = t.errors.message Field.confirmPassword := by
  refine ⟨?_, handleChange_password_keeps⟩
  apply synced_message
  induction hs generalizing k with
  | init =>
    rw [isTouched_initial] at ht
    exact Bool.noConfusion ht
  | @step s s1 ev _ hg hstep ih =>
    refine step_synced (storedBlur_of_passwordKept hg) hstep k ht (ih k) ?_
    intro _ e he hpw
    subst he
    have h1 : (!(decide (e.name = Field.password) &&
        s.touched.isTouched Field.confirmPassword)) = true := hg
    rw [hpw] at h1
    simpa using h1

/-- The touched confirmation of `matchingState`, which equals the password and has no error. -/
theorem touched_shows_validity_witness :
    (ReachableBy passwordKept matchingState ∧
      matchingState.touched.isTouched Field.confirmPassword = true) ∧
    (∃ msg, validateField "confirmPassword" (matchingState.formData.get Field.confirmPassword)
        matchingState.formData = some msg ∧
      matchingState.errors.message Field.confirmPassword =
        (if msg = "" then none else some msg)) ∧
    ∀ (t : State) (e : Target), e.name = Field.password →
      ∃ t1, handleChange t e = some t1 ∧ t1.touched = t.touched ∧
        t1.errors.get Field.confirmPassword = t.errors.get Field.confirmPassword ∧
        t1.errors.message Field.confirmPassword = t.errors.message Field.confirmPassword :=
  ⟨⟨reachableBy_matchingState, by decide⟩,
    touched_shows_validity matchingState reachableBy_matchingState Field.confirmPassword
      (by decide)⟩

/-- C17 (fields that read only their own value): in every state reached from the initial state
by change, blur and submit events in which each blur carries the stored value, the error of a
touched field other than confirmPassword is the message of `validateField` for its stored
value against the current values (no error for ""). -/
theorem own_value_fields_synced (s : State) (hs : ReachableBy storedBlur s) (k : Field)
    (hk : k ≠ Field.confirmPassword) (ht : s.touched.isTouched k = true) :
    ∃ msg, validateField k.name (s.formData.get k) s.formData = some msg ∧
      s.errors.message k = (if msg = "" then none else some msg) := by
  apply synced_message
  induction hs with
  | init =>
    rw [isTouched_initial] at ht
    exact Bool.noConfusion ht
  | @step s s1 ev _ hg hstep ih =>
    exact step_synced hg hstep k ht ih (fun hcp => absurd hcp hk)

/-- The touched email of `blurState`, which is empty and shows "Email is required". -/
theorem own_value_fields_synced_witness :
    (ReachableBy storedBlur blurState ∧ Field.email ≠ Field.confirmPassword ∧
      blurState.touched.isTouched Field.email = true) ∧
    ∃ msg, validateField "email" (blurState.formData.get Field.email) blurState.formData =
        some msg ∧
      blurState.errors.message Field.email = (if msg = "" then none else some msg) :=
  ⟨⟨reachableBy_blurState, by decide, by decide⟩,
    own_value_fields_synced blurState reachableBy_blurState Field.email (by decide)
      (by decide)⟩

end Form
